import Mathlib

/-!
# Verification of the TNetXNGFile vectored-read core

Shallow embedding of the core logic of `net/netxng/src/TNetXNGFile.cxx`
(asynchronous-open coordination and vectored-read chunking, dispatch and
join), with theorems settling the frozen claims about it.

Conventions of the embedding:
* C++ machine integers are modelled as `Int`; the one place where the source
  narrows a 64-bit value into a 32-bit variable (`Int_t offset` in
  `ReadBuffers`) is modelled explicitly by `toInt32`, wrapping modulo `2^32`
  into the signed range `[-2^31, 2^31)`.
* C++ `/` and `%` truncate toward zero while Lean's `Int` division is
  Euclidean; the source only ever divides `length[i] / fReadvIorMax` on the
  branch `length[i] > fReadvIorMax`, where (for a positive limit) both
  operands are positive and the two conventions coincide.
* Stateful code is explicit state passing; the external XRootD session is a
  parameter (per-batch submission acceptance, per-batch completion status).
-/

namespace TNetXNGFile

/-- Wrap an integer into the signed 32-bit range, the effect of assigning a
`Long64_t` expression to the `Int_t offset` variable in `ReadBuffers`. -/
def toInt32 (x : Int) : Int := (x + 2147483648) % 4294967296 - 2147483648

/-- `XrdCl::ChunkInfo` as used by `ReadBuffers`: an (offset, length) unit of a
vectored read.  The source stores the offset through the `Int_t offset`
temporary, so the offset recorded here is the 32-bit-wrapped value (its later
widening to the unsigned 64-bit field of `XrdCl::ChunkInfo` is sign
extension, which is injective on this range).  The shared destination-buffer
pointer carries no information for the claims and is omitted. -/
structure ChunkInfo where
  offset : Int
  length : Int
deriving DecidableEq, Repr

/-- The chunks produced from one read descriptor `(pos, len)` by the body of
the planning loop of `ReadBuffers` (lines 419-438): if `len > fReadvIorMax`,
`len / fReadvIorMax` full-size chunks followed by one remainder chunk of size
`len % fReadvIorMax` — the source pushes the remainder unconditionally, even
when it is zero; otherwise a single chunk of size `len`. -/
def descChunks (iorMax pos len : Int) : List ChunkInfo :=
  if len > iorMax then
    let nsplit := len / iorMax
    let rem := len % iorMax
    (List.range nsplit.toNat).map
        (fun j => ⟨toInt32 (pos + (j : Int) * iorMax), iorMax⟩)
      ++ [⟨toInt32 (pos + nsplit * iorMax), rem⟩]
  else
    [⟨toInt32 pos, len⟩]

/-- One iteration of the planning loop of `ReadBuffers` (lines 416-449): the
state is the pair (closed chunk lists, current open chunk list).  After the
descriptor's chunks are appended, the open list is flushed when it reaches
exactly `fReadvIovMax` chunks, and when it exceeds `fReadvIovMax` the first
`fReadvIovMax` chunks are flushed and the rest carried. -/
def chunkPlanStep (iorMax iovMax : Int)
    (st : List (List ChunkInfo) × List ChunkInfo) (d : Int × Int) :
    List (List ChunkInfo) × List ChunkInfo :=
  if ((st.2 ++ descChunks iorMax d.1 d.2).length : Int) = iovMax then
    (st.1 ++ [st.2 ++ descChunks iorMax d.1 d.2], [])
  else if iovMax < ((st.2 ++ descChunks iorMax d.1 d.2).length : Int) then
    (st.1 ++ [(st.2 ++ descChunks iorMax d.1 d.2).take iovMax.toNat],
     (st.2 ++ descChunks iorMax d.1 d.2).drop iovMax.toNat)
  else
    (st.1, st.2 ++ descChunks iorMax d.1 d.2)

/-- The full chunk-planning phase of `ReadBuffers`: fold the loop over the
descriptor list and push back the last (possibly empty) chunk list
unconditionally (line 452).  Each element of the result is one batch handed
to `XrdCl::File::VectorRead`. -/
def planBatches (iorMax iovMax : Int) (descs : List (Int × Int)) :
    List (List ChunkInfo) :=
  let st := descs.foldl (chunkPlanStep iorMax iovMax) ([], [])
  st.1 ++ [st.2]

/-- The length of the chunk list appended while one descriptor is flushed at
the `fReadvIovMax` boundary is exactly `fReadvIovMax`. -/
theorem chunkPlanStep_closed (iorMax iovMax : Int) (h : 0 < iovMax)
    (st : List (List ChunkInfo) × List ChunkInfo) (d : Int × Int)
    (hst : ∀ b ∈ st.1, (b.length : Int) = iovMax) :
    ∀ b ∈ (chunkPlanStep iorMax iovMax st d).1, (b.length : Int) = iovMax := by
  intro b hb
  unfold chunkPlanStep at hb
  split at hb
  case isTrue heq =>
    rcases List.mem_append.mp hb with h1 | h2
    · exact hst b h1
    · rw [List.mem_singleton.mp h2]
      exact heq
  case isFalse hne =>
    split at hb
    case isTrue hgt =>
      rcases List.mem_append.mp hb with h1 | h2
      · exact hst b h1
      · rw [List.mem_singleton.mp h2, List.length_take]
        have hle : iovMax.toNat ≤ (st.2 ++ descChunks iorMax d.1 d.2).length :=
          Int.toNat_le.mpr hgt.le
        rw [min_eq_left hle, Int.toNat_of_nonneg h.le]
    case isFalse => exact hst b hb

/-- One planning step neither drops nor reorders chunks: the flattening of
the state (closed batches then the open batch) grows by exactly the chunks of
the processed descriptor. -/
theorem chunkPlanStep_join (iorMax iovMax : Int)
    (st : List (List ChunkInfo) × List ChunkInfo) (d : Int × Int) :
    (chunkPlanStep iorMax iovMax st d).1.flatten
        ++ (chunkPlanStep iorMax iovMax st d).2
      = st.1.flatten ++ st.2 ++ descChunks iorMax d.1 d.2 := by
  unfold chunkPlanStep
  split
  · simp
  · split
    · simp [List.flatten_append]
    · simp

/-- Invariants of the planning fold: every closed batch has exactly
`fReadvIovMax` chunks, and the batches flattened in order are exactly the
per-descriptor chunks in descriptor order. -/
theorem planFold_props (iorMax iovMax : Int) (h : 0 < iovMax)
    (descs : List (Int × Int)) :
    ∀ st : List (List ChunkInfo) × List ChunkInfo,
      (∀ b ∈ st.1, (b.length : Int) = iovMax) →
      (∀ b ∈ (descs.foldl (chunkPlanStep iorMax iovMax) st).1,
          (b.length : Int) = iovMax) ∧
      (descs.foldl (chunkPlanStep iorMax iovMax) st).1.flatten
          ++ (descs.foldl (chunkPlanStep iorMax iovMax) st).2
        = st.1.flatten ++ st.2
            ++ descs.flatMap (fun d => descChunks iorMax d.1 d.2) := by
  induction descs with
  | nil => intro st hst; exact ⟨hst, by simp⟩
  | cons d ds ih =>
    intro st hst
    have hstep := chunkPlanStep_closed iorMax iovMax h st d hst
    have hih := ih (chunkPlanStep iorMax iovMax st d) hstep
    refine ⟨hih.1, ?_⟩
    rw [List.foldl_cons, hih.2, chunkPlanStep_join]
    simp

/-- The chunk lengths produced for one descriptor longer than the limit. -/
theorem descChunks_map_length (iorMax pos len : Int) (h : iorMax < len) :
    (descChunks iorMax pos len).map ChunkInfo.length
      = List.replicate (len / iorMax).toNat iorMax ++ [len % iorMax] := by
  simp only [descChunks, if_pos h, List.map_append, List.map_map,
    List.map_cons, List.map_nil]
  congr 1
  apply List.eq_replicate_iff.mpr
  refine ⟨by simp, ?_⟩
  intro b hb
  rcases List.mem_map.mp hb with ⟨j, _, rfl⟩
  rfl

/-- C1 (amended): for a read descriptor of positive length `L` and positive
chunk limit `M = fReadvIorMax`, when `L > M` the planning loop of
`ReadBuffers` emits `floor(L/M)` chunks of size `M` followed by exactly one
remainder chunk of size `L mod M` — the remainder chunk is pushed even when
`L mod M = 0`, so the chunk count is `floor(L/M) + 1`, not `ceil(L/M)`; when
`L ≤ M` a single chunk of size `L` is emitted; in every case the chunk
lengths sum exactly to `L`. -/
theorem c1_descriptor_split (iorMax pos len : Int)
    (hM : 0 < iorMax) (hL : 0 < len) :
    ((descChunks iorMax pos len).length
        = if iorMax < len then (len / iorMax).toNat + 1 else 1) ∧
    ((descChunks iorMax pos len).map ChunkInfo.length
        = if iorMax < len then
            List.replicate (len / iorMax).toNat iorMax ++ [len % iorMax]
          else [len]) ∧
    ((descChunks iorMax pos len).map ChunkInfo.length).sum = len := by
  by_cases h : iorMax < len
  · have hm := descChunks_map_length iorMax pos len h
    refine ⟨?_, by simpa [h] using hm, ?_⟩
    · have hlen : (descChunks iorMax pos len).length
          = ((descChunks iorMax pos len).map ChunkInfo.length).length :=
        (List.length_map _ _).symm
      rw [hlen, hm]
      simp [h]
    · rw [hm]
      have hdiv : (((len / iorMax).toNat : Int)) = len / iorMax :=
        Int.toNat_of_nonneg (Int.ediv_nonneg hL.le hM.le)
      simp only [List.sum_append, List.sum_replicate, List.sum_cons,
        List.sum_nil, add_zero, nsmul_eq_mul]
      rw [hdiv, mul_comm]
      exact Int.ediv_add_emod len iorMax
  · simp [descChunks, h]

/-- C1, counterexample to the claim as stated: with the default chunk limit
`fReadvIorMax = 2097136` and a descriptor of length `2 * 2097136` (so
`L mod M = 0`), the code produces 3 chunks — two full chunks and a
zero-length remainder chunk — not the `ceil(L/M) = 2` chunks the claim
promises (the zero remainder chunk is not omitted). -/
theorem c1_counterexample :
    (descChunks 2097136 0 4194272).map ChunkInfo.length
        = [2097136, 2097136, 0] ∧
    (descChunks 2097136 0 4194272).length ≠ 2 := by
  decide

/-- Witness for `c1_descriptor_split` at the default limit and `L = 4194273`. -/
theorem c1_descriptor_split_witness :
    ((descChunks 2097136 0 4194273).map ChunkInfo.length).sum = 4194273 :=
  (c1_descriptor_split 2097136 0 4194273 (by decide) (by decide)).2.2

/-- C2 (amended): in the batch plan of `ReadBuffers`, every batch except the
last has exactly `fReadvIovMax` chunks, and the concatenation of all batches
in order is exactly the per-descriptor chunk sequence in descriptor order
(overflow chunks are carried into the next batch, nothing is dropped or
reordered).  The final batch, pushed unconditionally, may hold any number of
chunks: zero, or even more than `fReadvIovMax` when a single descriptor
overflows the boundary by more than `fReadvIovMax`. -/
theorem c2_batch_structure (iorMax iovMax : Int) (h : 0 < iovMax)
    (descs : List (Int × Int)) :
    (∀ b ∈ (planBatches iorMax iovMax descs).dropLast,
        (b.length : Int) = iovMax) ∧
    (planBatches iorMax iovMax descs).flatten
      = descs.flatMap (fun d => descChunks iorMax d.1 d.2) := by
  have hp := planFold_props iorMax iovMax h descs ([], []) (by simp)
  constructor
  · intro b hb
    have hb' : b ∈ (descs.foldl (chunkPlanStep iorMax iovMax) ([], [])).1 := by
      simpa [planBatches] using hb
    exact hp.1 b hb'
  · simpa [planBatches, List.flatten_append] using hp.2

/-- C2, counterexample to the claim as stated: with limits
`fReadvIorMax = 1`, `fReadvIovMax = 2` and the single descriptor `(0, 5)`,
the overflow carry is checked only once per descriptor, so the final batch
holds 4 chunks, violating `1 ≤ size ≤ maxBatchCount`. -/
theorem c2_counterexample :
    ¬ ∀ b ∈ planBatches 1 2 [((0 : Int), (5 : Int))],
        1 ≤ b.length ∧ (b.length : Int) ≤ 2 := by
  decide

/-- Witness for `c2_batch_structure` at a concrete input. -/
theorem c2_batch_structure_witness :
    (planBatches 1 2 [((0 : Int), (5 : Int))]).flatten
      = [((0 : Int), (5 : Int))].flatMap (fun d => descChunks 1 d.1 d.2) :=
  (c2_batch_structure 1 2 (by decide) [((0 : Int), (5 : Int))]).2

/-- When the open batch stays strictly below `fReadvIovMax` after a
descriptor's chunks are appended, neither flush branch fires. -/
theorem chunkPlanStep_small (iorMax iovMax : Int)
    (st : List (List ChunkInfo) × List ChunkInfo) (d : Int × Int)
    (hlt : ((st.2 ++ descChunks iorMax d.1 d.2).length : Int) < iovMax) :
    chunkPlanStep iorMax iovMax st d
      = (st.1, st.2 ++ descChunks iorMax d.1 d.2) := by
  unfold chunkPlanStep
  rw [if_neg (by omega), if_neg (by omega)]

/-- The planning fold over all-zero-length descriptors never flushes while
fewer than `fReadvIovMax` chunks have accumulated: each descriptor appends
one zero-length chunk to the open batch. -/
theorem zeroLenFold (iorMax iovMax : Int) (hM : 0 ≤ iorMax) :
    ∀ (descs : List (Int × Int)) (acc : List (List ChunkInfo))
      (cur : List ChunkInfo),
      (∀ d ∈ descs, d.2 = 0) →
      ((cur.length : Int) + (descs.length : Int) < iovMax) →
      descs.foldl (chunkPlanStep iorMax iovMax) (acc, cur)
        = (acc, cur ++ descs.map (fun d => ⟨toInt32 d.1, 0⟩)) := by
  intro descs
  induction descs with
  | nil => intro acc cur _ _; simp
  | cons d ds ih =>
    intro acc cur hz hlen
    have hd0 : d.2 = 0 := hz d (by simp)
    have hchunk : descChunks iorMax d.1 d.2 = [⟨toInt32 d.1, 0⟩] := by
      rw [hd0]
      simp [descChunks, not_lt.mpr hM]
    have hlen' : (cur.length : Int) + (ds.length : Int) + 1 < iovMax := by
      simp only [List.length_cons] at hlen
      push_cast at hlen
      omega
    have hcur : ((cur ++ [(⟨toInt32 d.1, 0⟩ : ChunkInfo)]).length : Int)
        < iovMax := by
      simp only [List.length_append, List.length_cons, List.length_nil]
      push_cast
      omega
    have hstep : chunkPlanStep iorMax iovMax (acc, cur) d
        = (acc, cur ++ [⟨toInt32 d.1, 0⟩]) := by
      have := chunkPlanStep_small iorMax iovMax (acc, cur) d
        (by rw [hchunk]; exact hcur)
      rw [this, hchunk]
    have hih := ih acc (cur ++ [⟨toInt32 d.1, 0⟩])
      (fun e he => hz e (List.mem_cons_of_mem _ he))
      (by
        simp only [List.length_append, List.length_cons, List.length_nil]
        push_cast
        omega)
    rw [List.foldl_cons, hstep, hih]
    simp

/-- C4 (amended): a `ReadBuffers` call with zero descriptors, or whose
descriptors are all zero-length (fewer of them than `fReadvIovMax`), plans
exactly ONE batch — the unconditionally pushed final batch — holding one
zero-length chunk per descriptor (the empty batch for zero descriptors).
That single batch IS handed to `VectorRead`: the call makes one submission,
not zero. -/
theorem c4_zero_read_plan (iorMax iovMax : Int) (hM : 0 ≤ iorMax)
    (descs : List (Int × Int)) (hz : ∀ d ∈ descs, d.2 = 0)
    (hn : (descs.length : Int) < iovMax) :
    planBatches iorMax iovMax descs
      = [descs.map (fun d => ⟨toInt32 d.1, 0⟩)] := by
  have hfold := zeroLenFold iorMax iovMax hM descs [] [] hz (by simpa using hn)
  simp [planBatches, hfold]

/-- C4, counterexample to the claim as stated: with the default limits and
zero descriptors, the plan still contains one (empty) batch — the loop at
line 452 pushes the last chunk list unconditionally — so one `VectorRead`
submission is made, not zero. -/
theorem c4_counterexample :
    planBatches 2097136 1024 ([] : List (Int × Int)) = [[]] ∧
    (planBatches 2097136 1024 ([] : List (Int × Int))).length ≠ 0 := by
  decide

/-- Witness for `c4_zero_read_plan` at a concrete input. -/
theorem c4_zero_read_plan_witness :
    planBatches 2097136 1024 [((3 : Int), (0 : Int))]
      = [[⟨3, 0⟩]] := by
  have := c4_zero_read_plan 2097136 1024 (by decide)
    [((3 : Int), (0 : Int))] (by decide) (by decide)
  simpa [toInt32] using this

/-- C5 (amended): a zero-length descriptor does contribute to the plan: the
else-branch of the splitter turns it into exactly one chunk of length 0 (so
not every chunk in the planned batches originates from a descriptor of
positive length). -/
theorem c5_zero_length_chunk (iorMax pos : Int) (hM : 0 ≤ iorMax) :
    descChunks iorMax pos 0 = [⟨toInt32 pos, 0⟩] := by
  simp [descChunks, not_lt.mpr hM]

/-- C5, counterexample to the claim as stated: the zero-length descriptor
`(5, 0)` contributes one chunk under the default limit, not none. -/
theorem c5_counterexample :
    descChunks 2097136 5 0 = [⟨5, 0⟩] ∧ descChunks 2097136 5 0 ≠ [] := by
  decide

/-- Witness for `c5_zero_length_chunk` at a concrete input. -/
theorem c5_zero_length_chunk_witness :
    descChunks 2097136 7 0 = [⟨7, 0⟩] := by
  have := c5_zero_length_chunk 2097136 7 (by decide)
  simpa [toInt32] using this

/-- C6 (code bug): `ReadBuffers` computes every chunk offset through the
32-bit `Int_t offset` temporary although positions are 64-bit `Long64_t`.
For the descriptor `(2^31, 100)` under the default limits, the planned chunk
starts at `-2147483648` (which widens to `0xFFFFFFFF80000000` in
`XrdCl::ChunkInfo`), not at the descriptor's base offset `2147483648`: for
positions at or beyond `2^31` the planned offsets are wrong, contradicting
the documented meaning of `position[i]` and the 64-bit handling everywhere
else in the file. -/
theorem c6_offset_truncation :
    planBatches 2097136 1024 [((2147483648 : Int), (100 : Int))]
      = [[⟨-2147483648, 100⟩]] ∧
    (-2147483648 : Int) ≠ 2147483648 := by
  decide

/-- The status-slot vector of `ReadBuffers` after the completion callbacks
have run: `statuses` is pre-sized to the number of dispatched batches (line
457, every slot empty) and `TAsyncReadvHandler::HandleResponse` (line 93)
writes each arriving status into the slot of its own batch index, in
whatever order the completions arrive.  An arrival is the pair (batch index,
`IsOK()` of the delivered status). -/
def fillStatuses (n : Nat) (arrivals : List (Nat × Bool)) :
    List (Option Bool) :=
  arrivals.foldl (fun slots a => slots.set a.1 (some a.2))
    (List.replicate n none)

/-- The error scan of `ReadBuffers` (lines 479-495): after all semaphore
waits have returned, the slots are visited in ascending batch-index order
and the first non-OK status is the one reported. -/
def firstError (slots : List (Option Bool)) : Option Nat :=
  slots.findIdx? (fun s => s == some false)

/-- The in-index-order arrival list: batch `i` completes with `status i`. -/
def canonicalArrivals (n : Nat) (status : Nat → Bool) :
    List (Nat × Bool) :=
  (List.range n).map (fun i => (i, status i))

/-- Writing the slots preserves the slot-vector length. -/
theorem fillFold_length (arr : List (Nat × Bool))
    (init : List (Option Bool)) :
    (arr.foldl (fun slots a => slots.set a.1 (some a.2)) init).length
      = init.length := by
  induction arr generalizing init with
  | nil => rfl
  | cons a l ih =>
    rw [List.foldl_cons, ih]
    exact List.length_set init a.1 (some a.2)

/-- A slot no arrival addresses keeps its initial content. -/
theorem fillFold_untouched (arr : List (Nat × Bool))
    (init : List (Option Bool)) (i : Nat) (h : ∀ p ∈ arr, p.1 ≠ i) :
    (arr.foldl (fun slots a => slots.set a.1 (some a.2)) init)[i]?
      = init[i]? := by
  induction arr generalizing init with
  | nil => rfl
  | cons a l ih =>
    rw [List.foldl_cons, ih _ (fun p hp => h p (List.mem_cons_of_mem _ hp))]
    exact List.getElem?_set_ne (h a (List.mem_cons_self a l))

/-- With pairwise-distinct batch indices, the slot of index `i` ends up
holding exactly the status delivered for batch `i`. -/
theorem fillFold_written (arr : List (Nat × Bool)) (i : Nat) (b : Bool) :
    ∀ init : List (Option Bool), (i, b) ∈ arr →
      (arr.map Prod.fst).Nodup → i < init.length →
      (arr.foldl (fun slots a => slots.set a.1 (some a.2)) init)[i]?
        = some (some b) := by
  induction arr with
  | nil => intro _ h; cases h
  | cons a l ih =>
    intro init hmem hnd hi
    rw [List.foldl_cons]
    rcases List.mem_cons.mp hmem with heq | hmem'
    · subst heq
      have h1 : i ∉ l.map Prod.fst :=
        (List.nodup_cons.mp (by simpa using hnd)).1
      rw [fillFold_untouched l _ i
        (fun p hp hpe => h1 (hpe ▸ List.mem_map_of_mem Prod.fst hp))]
      exact List.getElem?_set_self hi
    · have hnd' : (l.map Prod.fst).Nodup :=
        (List.nodup_cons.mp (by simpa using hnd)).2
      exact ih _ hmem' hnd' (by simpa using hi)

/-- Any arrival order that is a permutation of the per-batch completions
fills the slot vector identically: slot `i` holds batch `i`'s status. -/
theorem fillStatuses_of_perm (n : Nat) (status : Nat → Bool)
    (arr : List (Nat × Bool))
    (hperm : arr.Perm (canonicalArrivals n status)) :
    fillStatuses n arr = (List.range n).map (fun i => some (status i)) := by
  apply List.ext_getElem?
  intro i
  by_cases hi : i < n
  · have hmem : (i, status i) ∈ arr := by
      apply hperm.mem_iff.mpr
      simp only [canonicalArrivals, List.mem_map, List.mem_range]
      exact ⟨i, hi, rfl⟩
    have hnd : (arr.map Prod.fst).Nodup := by
      have hcan : (canonicalArrivals n status).map Prod.fst
          = List.range n := by
        rw [canonicalArrivals, List.map_map,
          show (Prod.fst ∘ fun i => (i, status i)) = fun i : Nat => i from rfl]
        exact List.map_id' (List.range n)
      have hnd0 : ((canonicalArrivals n status).map Prod.fst).Nodup := by
        rw [hcan]; exact List.nodup_range n
      exact ((hperm.map Prod.fst).nodup_iff).mpr hnd0
    rw [fillStatuses, fillFold_written arr i (status i) _ hmem hnd (by simpa using hi)]
    simp [hi]
  · have hlen : (fillStatuses n arr).length = n := by
      simp [fillStatuses, fillFold_length]
    rw [List.getElem?_eq_none (by omega),
      List.getElem?_eq_none (by simpa using Nat.le_of_not_lt hi)]

/-- C3: the join of `ReadBuffers` is deterministic.  After all `n` semaphore
waits, any two arrival orders (permutations of the same per-index
completions) leave identical status vectors, so the scan result depends only
on the per-index statuses; and the error scan reports exactly the
lowest-index failing batch (it fails some batch whenever one exists). -/
theorem c3_join_determinism (n : Nat) (status : Nat → Bool)
    (arr1 arr2 : List (Nat × Bool))
    (h1 : arr1.Perm (canonicalArrivals n status))
    (h2 : arr2.Perm (canonicalArrivals n status)) :
    fillStatuses n arr1 = fillStatuses n arr2 ∧
    (∀ k, firstError (fillStatuses n arr1) = some k →
        k < n ∧ status k = false ∧ ∀ j < k, status j = true) ∧
    ((∃ i, i < n ∧ status i = false) →
        ∃ k, firstError (fillStatuses n arr1) = some k) := by
  rw [fillStatuses_of_perm n status arr1 h1, fillStatuses_of_perm n status arr2 h2]
  refine ⟨rfl, ?_, ?_⟩
  · intro k hk
    rw [firstError] at hk
    rcases List.findIdx?_eq_some_iff_getElem.mp hk with ⟨hlt, hpk, hprev⟩
    have hkn : k < n := by simpa using hlt
    refine ⟨hkn, ?_, ?_⟩
    · have := hpk
      simp [List.getElem_map, hkn] at this
      exact this
    · intro j hj
      have := hprev j hj
      simp [List.getElem_map] at this
      exact this
  · intro ⟨i, hi, hfail⟩
    cases hfe : firstError ((List.range n).map fun i => some (status i)) with
    | some k => exact ⟨k, rfl⟩
    | none =>
      exfalso
      rw [firstError, List.findIdx?_eq_none_iff] at hfe
      have hmem : some (status i) ∈ (List.range n).map (fun i => some (status i)) :=
        List.mem_map_of_mem _ (List.mem_range.mpr hi)
      have := hfe _ hmem
      rw [hfail] at this
      simp at this

/-- Witness for `c3_join_determinism`: three batches, batch 0 succeeds,
batches 1 and 2 fail; two different arrival orders. -/
theorem c3_join_determinism_witness :
    (fillStatuses 3 [(2, false), (0, true), (1, false)]
        = fillStatuses 3 [(1, false), (2, false), (0, true)]) ∧
    (∀ k, firstError (fillStatuses 3 [(2, false), (0, true), (1, false)])
          = some k →
        k < 3 ∧ (fun i => i == 0) k = false ∧
          ∀ j < k, (fun i => i == 0) j = true) ∧
    ((∃ i, i < 3 ∧ (fun i => i == 0) i = false) →
        ∃ k, firstError (fillStatuses 3 [(2, false), (0, true), (1, false)])
          = some k) :=
  c3_join_determinism 3 (fun i => i == 0)
    [(2, false), (0, true), (1, false)] [(1, false), (2, false), (0, true)]
    (by decide) (by decide)

/-- Observable outcome of the dispatch-and-join phase of `ReadBuffers`
(lines 459-513): how many `VectorRead` submissions were attempted, how many
semaphore waits ran before returning, whether `statuses` and `semaphore`
were freed before returning, and the returned flag (`kTRUE` = failure). -/
structure DispatchOutcome where
  submitted : Nat
  waits : Nat
  freed : Bool
  failed : Bool
deriving DecidableEq, Repr

/-- The dispatch-and-join control flow of `ReadBuffers` over `n` planned
batches: submissions are attempted in batch order; on the first rejected
submission the call returns `kTRUE` at once, with no semaphore wait and
without freeing the status vector or the semaphore (lines 467-470).  When
every submission is accepted, the call waits once per batch, scans the
statuses in index order, and frees both objects on success and on completion
failure alike (lines 473-513). -/
def dispatchJoin (n : Nat) (submitOK completionOK : Nat → Bool) :
    DispatchOutcome :=
  match (List.range n).findIdx? (fun i => !submitOK i) with
  | some k => ⟨k + 1, 0, false, true⟩
  | none =>
    match (List.range n).findIdx? (fun i => !completionOK i) with
    | some _ => ⟨n, n, true, true⟩
    | none => ⟨n, n, true, false⟩

/-- C7 (amended): when the submission of batch `k` is rejected at dispatch
time, `ReadBuffers` reports failure to the caller right away and the `k`
batches already submitted are not retracted — but their eventual completions
are NOT drained before the call returns: the call performs zero semaphore
waits and returns without freeing the status vector or the semaphore, which
leak to the still-running handlers. -/
theorem c7_dispatch_failure (n : Nat) (submitOK completionOK : Nat → Bool)
    (k : Nat)
    (hk : (List.range n).findIdx? (fun i => !submitOK i) = some k) :
    dispatchJoin n submitOK completionOK
      = ⟨k + 1, 0, false, true⟩ := by
  simp [dispatchJoin, hk]

/-- C7, counterexample to the claim as stated: two batches, the first
submission accepted, the second rejected.  The call fails immediately, but
performs zero waits and frees nothing, so the in-flight completion of batch
0 is not drained and its status slot is not released. -/
theorem c7_counterexample :
    (dispatchJoin 2 (fun i => i == 0) (fun _ => true)).failed = true ∧
    (dispatchJoin 2 (fun i => i == 0) (fun _ => true)).waits = 0 ∧
    ¬((dispatchJoin 2 (fun i => i == 0) (fun _ => true)).waits = 1 ∧
      (dispatchJoin 2 (fun i => i == 0) (fun _ => true)).freed = true) := by
  decide

/-- Witness for `c7_dispatch_failure` at the input of the counterexample. -/
theorem c7_dispatch_failure_witness :
    dispatchJoin 2 (fun i => i == 0) (fun _ => true) = ⟨2, 0, false, true⟩ :=
  c7_dispatch_failure 2 (fun i => i == 0) (fun _ => true) 1 (by decide)

/-- `TFile::EAsyncOpenStatus`, the asynchronous-open state of the file. -/
inductive EAsyncOpenStatus where
  | kAOSNotAsync
  | kAOSFailure
  | kAOSInProgress
  | kAOSSuccess
deriving DecidableEq, Repr

/-- A state value is terminal when the open has resolved. -/
def EAsyncOpenStatus.isTerminal : EAsyncOpenStatus → Bool
  | .kAOSSuccess => true
  | .kAOSFailure => true
  | _ => false

/-- The pieces of `TNetXNGFile` state touched by `SetAsyncOpenStatus`:
`fAsyncOpenStatus` and the number of `fInitCondVar->Signal()` calls
issued. -/
structure AsyncOpenVar where
  status : EAsyncOpenStatus
  signals : Nat
deriving DecidableEq, Repr

/-- `TNetXNGFile::SetAsyncOpenStatus` (lines 253-261): unconditionally
assigns the new status and signals the condition variable — there is no
guard against overwriting a terminal state. -/
def setAsyncOpenStatus (s : EAsyncOpenStatus) (v : AsyncOpenVar) :
    AsyncOpenVar :=
  { status := s, signals := v.signals + 1 }

/-- The sequence of `SetAsyncOpenStatus` calls one asynchronous open
generates: `TAsyncOpenHandler`'s constructor sets `kAOSInProgress` (line
45) and its `HandleResponse` (lines 51-66) sets the terminal value once and
deletes the handler, so no further call follows. -/
def asyncOpenTrace (ok : Bool) : List EAsyncOpenStatus :=
  [.kAOSInProgress, if ok then .kAOSSuccess else .kAOSFailure]

/-- Run a sequence of `SetAsyncOpenStatus` calls. -/
def runCalls (calls : List EAsyncOpenStatus) (v : AsyncOpenVar) :
    AsyncOpenVar :=
  calls.foldl (fun v s => setAsyncOpenStatus s v) v

/-- C8 (amended): `SetAsyncOpenStatus` itself overwrites the state
unconditionally; the non-regression of the open state comes from the call
discipline, not from the setter.  Starting from the initial `kAOSNotAsync`
state, the calls an asynchronous open actually generates are
`kAOSInProgress` followed by exactly one terminal value, so whenever a
prefix of that call sequence has reached a terminal state, no call remains
— the state stays at that terminal value — and the final state is
terminal. -/
theorem c8_no_regress_in_protocol (ok : Bool) (v : AsyncOpenVar)
    (hv : v.status = .kAOSNotAsync) (p q : List EAsyncOpenStatus)
    (hsplit : asyncOpenTrace ok = p ++ q)
    (hterm : (runCalls p v).status.isTerminal = true) :
    q = [] ∧
    (runCalls (asyncOpenTrace ok) v).status.isTerminal = true := by
  refine ⟨?_, by cases ok <;> simp [asyncOpenTrace, runCalls,
    setAsyncOpenStatus, EAsyncOpenStatus.isTerminal]⟩
  match p, hsplit with
  | [], h =>
    rw [runCalls, List.foldl_nil, hv] at hterm
    cases hterm
  | [a], h =>
    have ha : a = .kAOSInProgress := by
      cases ok <;> exact ((List.cons_eq_cons.mp h).1).symm
    rw [runCalls, ha] at hterm
    cases hterm
  | [a, b], h =>
    have hlen := congrArg List.length h
    rw [List.length_append] at hlen
    have h2 : (asyncOpenTrace ok).length = 2 := by cases ok <;> rfl
    rw [h2] at hlen
    simp only [List.length_cons, List.length_nil] at hlen
    exact List.eq_nil_of_length_eq_zero (by omega)
  | a :: b :: c :: l, h =>
    have hlen := congrArg List.length h
    rw [List.length_append] at hlen
    have h2 : (asyncOpenTrace ok).length = 2 := by cases ok <;> rfl
    rw [h2] at hlen
    simp only [List.length_cons] at hlen
    omega

/-- C8, counterexample to the claim as stated: calling `SetAsyncOpenStatus`
again after the state is terminal is not a no-op — the function assigns
unconditionally, so a `kAOSFailure` call delivered on a `kAOSSuccess` state
overwrites it (and signals the condition variable again). -/
theorem c8_counterexample :
    (setAsyncOpenStatus .kAOSFailure ⟨.kAOSSuccess, 1⟩).status
        = .kAOSFailure ∧
    setAsyncOpenStatus .kAOSFailure ⟨.kAOSSuccess, 1⟩ ≠ ⟨.kAOSSuccess, 1⟩ := by
  decide

/-- Witness for `c8_no_regress_in_protocol` with the full trace as prefix. -/
theorem c8_no_regress_in_protocol_witness :
    ([] : List EAsyncOpenStatus) = [] ∧
    (runCalls (asyncOpenTrace true) ⟨.kAOSNotAsync, 0⟩).status.isTerminal
      = true :=
  c8_no_regress_in_protocol true ⟨.kAOSNotAsync, 0⟩ rfl
    (asyncOpenTrace true) [] (by simp) (by decide)

/-- What a call to `TNetXNGFile::Init` does before reaching `TFile::Init`. -/
inductive InitOutcome where
  | returnedEarly
  | blockedThenProceeded
  | proceededImmediately
deriving DecidableEq, Repr

/-- The file state `Init` inspects: `fInitDone`, `fFile->IsOpen()` and
`fAsyncOpenStatus`. -/
structure InitViewSt where
  initDone : Bool
  isOpen : Bool
  asyncOpenStatus : EAsyncOpenStatus
deriving DecidableEq, Repr

/-- The control flow of `TNetXNGFile::Init` (lines 187-219): return at once
if `TFile::Init` already ran; block on `fInitCondVar` if the file is not
open and the asynchronous open is still in progress; otherwise proceed
immediately. -/
def initCall (s : InitViewSt) : InitOutcome :=
  if s.initDone then .returnedEarly
  else if !s.isOpen && s.asyncOpenStatus == .kAOSInProgress then
    .blockedThenProceeded
  else .proceededImmediately

/-- C9: `Init` blocks exactly when the asynchronous open is still in
progress and the file is not yet open (and `TFile::Init` has not already
run); when the open state is already terminal or the file is already open,
it proceeds immediately without blocking.  The wake-up for a blocked `Init`
is the `Signal()` issued by `SetAsyncOpenStatus`, which the open handler
calls with a terminal value, and after that delivery the blocking condition
has disappeared, so the woken `Init` proceeds with the outcome available. -/
theorem c9_init_blocking (s : InitViewSt) (h : s.initDone = false) :
    (initCall s = .blockedThenProceeded ↔
      s.isOpen = false ∧ s.asyncOpenStatus = .kAOSInProgress) ∧
    ((s.isOpen = true ∨ s.asyncOpenStatus.isTerminal = true) →
      initCall s = .proceededImmediately) ∧
    (∀ (ok : Bool) (v : AsyncOpenVar),
      (setAsyncOpenStatus (if ok then .kAOSSuccess else .kAOSFailure) v).signals
          = v.signals + 1 ∧
      (setAsyncOpenStatus
          (if ok then .kAOSSuccess else .kAOSFailure) v).status.isTerminal
          = true ∧
      initCall { s with asyncOpenStatus :=
          (setAsyncOpenStatus
            (if ok then .kAOSSuccess else .kAOSFailure) v).status }
        = .proceededImmediately) := by
  refine ⟨?_, ?_, ?_⟩
  · constructor
    · intro hb
      rw [initCall, if_neg (by simp [h])] at hb
      by_cases hc : !s.isOpen && s.asyncOpenStatus == .kAOSInProgress
      · rcases Bool.and_eq_true_iff.mp hc with ⟨h1, h2⟩
        exact ⟨by simpa using h1, by simpa using h2⟩
      · rw [if_neg hc] at hb
        cases hb
    · intro ⟨h1, h2⟩
      rw [initCall, if_neg (by simp [h]), if_pos (by simp [h1, h2])]
  · intro hc
    rw [initCall, if_neg (by simp [h])]
    rw [if_neg ?_]
    rcases hc with h1 | h2
    · simp [h1]
    · cases hs : s.asyncOpenStatus
      case kAOSNotAsync =>
        rw [hs] at h2
        simp [EAsyncOpenStatus.isTerminal] at h2
      case kAOSFailure => simp [hs]
      case kAOSInProgress =>
        rw [hs] at h2
        simp [EAsyncOpenStatus.isTerminal] at h2
      case kAOSSuccess => simp [hs]
  · intro ok v
    refine ⟨rfl, by cases ok <;> rfl, ?_⟩
    rw [initCall, if_neg (by simp [h])]
    cases ok <;> simp [setAsyncOpenStatus]

/-- Witness for `c9_init_blocking` at the blocked state. -/
theorem c9_init_blocking_witness :
    (initCall ⟨false, false, .kAOSInProgress⟩ = .blockedThenProceeded ↔
      (false = false ∧
        EAsyncOpenStatus.kAOSInProgress = .kAOSInProgress)) ∧
    ((false = true ∨ EAsyncOpenStatus.isTerminal .kAOSInProgress = true) →
      initCall ⟨false, false, .kAOSInProgress⟩ = .proceededImmediately) ∧
    (∀ (ok : Bool) (v : AsyncOpenVar),
      (setAsyncOpenStatus (if ok then .kAOSSuccess else .kAOSFailure) v).signals
          = v.signals + 1 ∧
      (setAsyncOpenStatus
          (if ok then .kAOSSuccess else .kAOSFailure) v).status.isTerminal
          = true ∧
      initCall { (⟨false, false, .kAOSInProgress⟩ : InitViewSt) with
          asyncOpenStatus :=
            (setAsyncOpenStatus
              (if ok then .kAOSSuccess else .kAOSFailure) v).status }
        = .proceededImmediately) :=
  c9_init_blocking ⟨false, false, .kAOSInProgress⟩ rfl

/-- The `XrdCl::OpenFlags::Flags` values this file uses. -/
inductive OpenFlags where
  | None
  | Delete
  | New
  | Update
  | Read
deriving DecidableEq, Repr

/-- `TString::ToUpper` as used by `ParseOpenMode`: upper-case every
character. -/
def toUpper (s : String) : String :=
  String.mk (s.data.map Char.toUpper)

/-- `TNetXNGFile::ParseOpenMode` (lines 567-585): upper-case the mode string
and map it to an open flag, `None` for anything unrecognised. -/
def parseOpenMode (modestr : String) : OpenFlags :=
  if toUpper modestr = "NEW" ∨ toUpper modestr = "CREATE" then .New
  else if toUpper modestr = "RECREATE" then .Delete
  else if toUpper modestr = "UPDATE" then .Update
  else if toUpper modestr = "READ" then .Read
  else .None

/-- The `TNetXNGFile` state `ReOpen` touches: the cached access mode
`fMode` and whether the underlying session file handle is open. -/
structure ReOpenSt where
  fMode : OpenFlags
  sessionOpen : Bool
deriving DecidableEq, Repr

/-- `TNetXNGFile::ReOpen` (lines 281-316): reject modes other than Read and
Update with 1; report 1 when the mode is not really changing; otherwise
close the session file, overwrite `fMode`, and re-open — returning 0 on
success but 1 (not the documented -1) when the re-open fails, with the old
session already closed and `fMode` already overwritten.  `openOK` is
whether the session's `Open` call succeeds. -/
def reOpen (modestr : String) (openOK : Bool) (st : ReOpenSt) :
    Int × ReOpenSt :=
  if parseOpenMode modestr ≠ .Read ∧ parseOpenMode modestr ≠ .Update then
    (1, st)
  else if parseOpenMode modestr = st.fMode ∨
      (parseOpenMode modestr = .Update ∧ st.fMode = .New) then
    (1, st)
  else if openOK then (0, ⟨parseOpenMode modestr, true⟩)
  else (1, ⟨parseOpenMode modestr, false⟩)

/-- C10: for a valid mode change (Read to Update or Update to Read) whose
underlying re-open fails, `ReOpen` returns 1 — the same value it returns
when the mode did not change — and it never returns -1 on any input, even
though by then the old session has been closed and `fMode` has been set to
the new mode; the caller cannot tell a failed reopen from a no-op by the
return value alone. -/
theorem c10_reopen_failure_indistinguishable (modestr : String)
    (st : ReOpenSt)
    (hvalid : (parseOpenMode modestr = .Read ∧ st.fMode = .Update) ∨
              (parseOpenMode modestr = .Update ∧ st.fMode = .Read)) :
    (reOpen modestr false st).1 = 1 ∧
    (reOpen modestr false st).2.fMode = parseOpenMode modestr ∧
    (reOpen modestr false st).2.sessionOpen = false ∧
    (∀ (m : String) (ok : Bool) (s : ReOpenSt), (reOpen m ok s).1 ≠ -1) ∧
    (∀ (m : String) (ok : Bool) (s : ReOpenSt),
      parseOpenMode m = s.fMode → (reOpen m ok s).1 = 1) := by
  have hmain : (reOpen modestr false st).1 = 1 ∧
      (reOpen modestr false st).2.fMode = parseOpenMode modestr ∧
      (reOpen modestr false st).2.sessionOpen = false := by
    obtain ⟨h1, h2⟩ | ⟨h1, h2⟩ := hvalid
    · simp [reOpen, h1, h2]
    · simp [reOpen, h1, h2]
  refine ⟨hmain.1, hmain.2.1, hmain.2.2, ?_, ?_⟩
  · intro m ok s
    unfold reOpen
    split
    · simp
    · split
      · simp
      · split
        · simp
        · simp
  · intro m ok s hm
    unfold reOpen
    split
    · rfl
    · rw [if_pos (Or.inl hm)]

/-- Witness for `c10_reopen_failure_indistinguishable`: a Read-mode reopen
request on an Update-mode file whose session re-open fails. -/
theorem c10_reopen_witness :
    (reOpen "READ" false ⟨.Update, true⟩).1 = 1 ∧
    (reOpen "READ" false ⟨.Update, true⟩).2.fMode = parseOpenMode "READ" ∧
    (reOpen "READ" false ⟨.Update, true⟩).2.sessionOpen = false ∧
    (∀ (m : String) (ok : Bool) (s : ReOpenSt), (reOpen m ok s).1 ≠ -1) ∧
    (∀ (m : String) (ok : Bool) (s : ReOpenSt),
      parseOpenMode m = s.fMode → (reOpen m ok s).1 = 1) :=
  c10_reopen_failure_indistinguishable "READ" ⟨.Update, true⟩
    (Or.inl ⟨by decide, rfl⟩)

end TNetXNGFile
